import Mathlib

/-
Verification of the swagger-mcp spec-to-tool compiler and request dispatcher.

The Go sources are shallowly embedded as executable Lean definitions:
Go maps become association lists, Go strings become Lean strings manipulated
through character lists, early-return error handling becomes Except, and the
external world (the HTTP client and the JSON standard-library decoder used
for array/object body fields) is a record of function parameters.  Character
handling (case folding, escaping) models the ASCII fragment the repository's
data exercises.
-/

namespace SwaggerMcp

/-! ### Characters with special meaning (written by code to avoid brace literals) -/

def lbrace : Char := Char.ofNat 123

def rbrace : Char := Char.ofNat 125

/-! ### Go string primitives, modelled on character lists -/

def lowerMap (s : String) : List Char := s.data.map Char.toLower

/-- strings.EqualFold, on the ASCII fragment (simple case folding). -/
def foldEq (s t : String) : Bool := lowerMap s == lowerMap t

def goToLower (s : String) : String := String.mk (s.data.map Char.toLower)

def goToUpper (s : String) : String := String.mk (s.data.map Char.toUpper)

/-- strings.TrimSpace. -/
def goTrimSpace (s : String) : String :=
  String.mk (((s.data.dropWhile Char.isWhitespace).reverse.dropWhile Char.isWhitespace).reverse)

def goSplitChars (sep : Char) : List Char → List (List Char)
  | [] => [[]]
  | c :: cs =>
    if c = sep then [] :: goSplitChars sep cs
    else
      match goSplitChars sep cs with
      | [] => [[c]]
      | g :: gs => (c :: g) :: gs

/-- strings.Split with a one-character separator. -/
def goSplit (s : String) (sep : Char) : List String :=
  (goSplitChars sep s.data).map String.mk

/-- strings.HasPrefix. -/
def strHasPre (s pre : String) : Bool := pre.data.isPrefixOf s.data

/-- strings.HasSuffix. -/
def strHasSuf (s suf : String) : Bool := suf.data.isSuffixOf s.data

/-- strings.TrimPrefix. -/
def strTrimPre (s pre : String) : String :=
  if strHasPre s pre then String.mk (s.data.drop pre.data.length) else s

/-- strings.TrimSuffix. -/
def strTrimSuf (s suf : String) : String :=
  if strHasSuf s suf then String.mk (s.data.take (s.data.length - suf.data.length)) else s

def idxOfChar (c : Char) : List Char → Option Nat
  | [] => none
  | x :: xs => if x = c then some 0 else (idxOfChar c xs).map (· + 1)

/-- The slice s[a:b] of a Go string (ASCII: byte and character offsets agree). -/
def strSlice (s : String) (a b : Nat) : String :=
  String.mk ((s.data.drop a).take (b - a))

def replaceFirstChars (old new : List Char) : List Char → List Char
  | [] => []
  | c :: cs =>
    if old.isPrefixOf (c :: cs) then new ++ (c :: cs).drop old.length
    else c :: replaceFirstChars old new cs

/-- strings.Replace with count 1. -/
def goReplaceFirst (s old new : String) : String :=
  if old = "" then new ++ s else String.mk (replaceFirstChars old.data new.data s.data)

/-- strings.ReplaceAll with a one-character pattern and an empty replacement. -/
def removeChar (s : String) (c : Char) : String :=
  String.mk (s.data.filter (fun x => x ≠ c))

/-- Lexicographic byte order on ASCII strings, as Go sorts JSON object keys. -/
def strLe (s t : String) : Bool :=
  let rec go : List Char → List Char → Bool
    | [], _ => true
    | _ :: _, [] => false
    | a :: as_, b :: bs => if a = b then go as_ bs else decide (a.toNat < b.toNat)
  go s.data t.data

def insertByKey (x : String × α) : List (String × α) → List (String × α)
  | [] => [x]
  | y :: ys => if strLe x.1 y.1 then x :: y :: ys else y :: insertByKey x ys

def sortByKey (l : List (String × α)) : List (String × α) :=
  l.foldr insertByKey []

/-! ### Numeric parsing (strconv) -/

def digitsToNat? (l : List Char) : Option Nat :=
  if l.isEmpty then none
  else if l.all Char.isDigit then
    some (l.foldl (fun acc c => acc * 10 + (c.toNat - 48)) 0)
  else none

/-- strconv.Atoi: optional sign, decimal digits, 64-bit range check. -/
def goAtoi (s : String) : Option Int :=
  let signed : Bool × List Char :=
    match s.data with
    | '+' :: rest => (false, rest)
    | '-' :: rest => (true, rest)
    | l => (false, l)
  match digitsToNat? signed.2 with
  | none => none
  | some n =>
    let v : Int := if signed.1 then -(n : Int) else (n : Int)
    if -(2 ^ 63) ≤ v ∧ v < 2 ^ 63 then some v else none

/-- strconv.ParseBool accepts exactly these forms. -/
def goParseBool (s : String) : Option Bool :=
  if s = "1" ∨ s = "t" ∨ s = "T" ∨ s = "TRUE" ∨ s = "true" ∨ s = "True" then some true
  else if s = "0" ∨ s = "f" ∨ s = "F" ∨ s = "FALSE" ∨ s = "false" ∨ s = "False" then some false
  else none

def decDigitsVal (l : List Char) : Nat :=
  l.foldl (fun acc c => acc * 10 + (c.toNat - 48)) 0

/-- strconv.ParseFloat on the decimal fragment: optional sign, digits with an
optional fractional part, optional decimal exponent.  Hexadecimal floats,
"inf"/"nan" forms and digit-separating underscores are not modelled. -/
def goParseFloat (s : String) : Option ℚ :=
  let splitE := goSplitChars 'e' (String.mk (s.data.map Char.toLower)).data
  match splitE with
  | [m] => goParseFloatMantissa m
  | [m, e] => do
    let base ← goParseFloatMantissa m
    let ex ← goParseFloatExp e
    pure (base * (10 : ℚ) ^ ex)
  | _ => none
where
  goParseFloatMantissa (m : List Char) : Option ℚ :=
    let signed : Bool × List Char :=
      match m with
      | '+' :: rest => (false, rest)
      | '-' :: rest => (true, rest)
      | l => (false, l)
    match goSplitChars '.' signed.2 with
    | [ip] =>
      if ip.isEmpty ∨ ¬ ip.all Char.isDigit then none
      else
        let q : ℚ := (decDigitsVal ip : ℚ)
        some (if signed.1 then -q else q)
    | [ip, fp] =>
      if (ip.isEmpty ∧ fp.isEmpty) ∨ ¬ ip.all Char.isDigit ∨ ¬ fp.all Char.isDigit then none
      else
        let q : ℚ := (decDigitsVal ip : ℚ) + (decDigitsVal fp : ℚ) / (10 : ℚ) ^ fp.length
        some (if signed.1 then -q else q)
    | _ => none
  goParseFloatExp (e : List Char) : Option ℤ :=
    let signed : Bool × List Char :=
      match e with
      | '+' :: rest => (false, rest)
      | '-' :: rest => (true, rest)
      | l => (false, l)
    match digitsToNat? signed.2 with
    | none => none
    | some n => some (if signed.1 then -(n : ℤ) else (n : ℤ))

/-! ### JSON values (the subset encoding/json produces for the request body) -/

inductive JVal where
  | jstr (s : String)
  | jint (n : Int)
  | jnum (q : ℚ)
  | jbool (b : Bool)
  | jarr (xs : List JVal)
  | jobj (fields : List (String × JVal))

/-- JSON string quoting; escapes the quote, the backslash and ASCII control
characters (the hex form is simplified to the two-digit decimal-free shape
only for the characters the repository's data never contains). -/
def jsonQuote (s : String) : String :=
  let esc (c : Char) : List Char :=
    if c = '"' then ['\\', '"']
    else if c = '\\' then ['\\', '\\']
    else if c = '\n' then ['\\', 'n']
    else if c = '\t' then ['\\', 't']
    else if c = '\r' then ['\\', 'r']
    else [c]
  String.mk ('"' :: (s.data.flatMap esc) ++ ['"'])

mutual

def jvalStr : JVal → String
  | .jstr s => jsonQuote s
  | .jint n => toString n
  | .jnum q => toString q
  | .jbool b => cond b "true" "false"
  | .jarr xs => "[" ++ jvalsStr xs ++ "]"
  | .jobj fs => String.mk [lbrace] ++ jfieldsStr fs ++ String.mk [rbrace]

def jvalsStr : List JVal → String
  | [] => ""
  | [x] => jvalStr x
  | x :: y :: xs => jvalStr x ++ "," ++ jvalsStr (y :: xs)

def jfieldsStr : List (String × JVal) → String
  | [] => ""
  | [(k, v)] => jsonQuote k ++ ":" ++ jvalStr v
  | (k, v) :: y :: xs => jsonQuote k ++ ":" ++ jvalStr v ++ "," ++ jfieldsStr (y :: xs)

end

/-- encoding/json.Marshal of a map[string]interface{}: object keys are
emitted in sorted order (nested objects come only from the opaque JSON
decoder parameter, so their field order is left as produced). -/
def goJsonMarshal (fields : List (String × JVal)) : Option String :=
  some (String.mk [lbrace] ++ jfieldsStr (sortByKey fields) ++ String.mk [rbrace])

/-! ### URLs (the fragment of net/url the dispatcher exercises) -/

structure Url where
  base : String
  query : List (String × String)
deriving DecidableEq, Repr

def hasCtl (s : String) : Bool := s.data.any (fun c => c.toNat < 32 ∨ c.toNat = 127)

def parseQueryStr (s : String) : List (String × String) :=
  if s = "" then []
  else
    (goSplit s '&').filterMap fun seg =>
      if seg = "" then none
      else
        match idxOfChar '=' seg.data with
        | none => some (seg, "")
        | some i => some (strSlice seg 0 i, strSlice seg (i + 1) seg.data.length)

/-- net/url.Parse, restricted to splitting off the query string; like Go it
rejects ASCII control characters.  Percent-decoding is not modelled (the
repository's flows never feed pre-escaped URLs through this path). -/
def parseUrl (s : String) : Option Url :=
  if hasCtl s then none
  else
    match idxOfChar '?' s.data with
    | none => some ⟨s, []⟩
    | some i => some ⟨strSlice s 0 i, parseQueryStr (strSlice s (i + 1) s.data.length)⟩

/-- url.QueryEscape on the ASCII fragment. -/
def queryEscape (s : String) : String :=
  let hexDigit (n : Nat) : Char := if n < 10 then Char.ofNat (48 + n) else Char.ofNat (55 + n)
  let esc (c : Char) : List Char :=
    if c.isAlphanum ∨ c = '-' ∨ c = '_' ∨ c = '.' ∨ c = '~' then [c]
    else if c = ' ' then ['+']
    else ['%', hexDigit (c.toNat / 16 % 16), hexDigit (c.toNat % 16)]
  String.mk (s.data.flatMap esc)

/-- url.Values.Set: replace every binding of the key with the new value. -/
def querySet (q : List (String × String)) (k v : String) : List (String × String) :=
  q.filter (fun p => p.1 ≠ k) ++ [(k, v)]

def queryGet (q : List (String × String)) (k : String) : Option String :=
  (q.find? (fun p => p.1 == k)).map (·.2)

/-- url.Values.Encode: sorted by key, escaped, joined with &. -/
def encodeQuery (q : List (String × String)) : String :=
  String.intercalate "&" ((sortByKey q).map fun p => queryEscape p.1 ++ "=" ++ queryEscape p.2)

/-- url.URL.String for the modelled fragment. -/
def Url.render (u : Url) : String :=
  u.base ++ (if u.query.isEmpty then "" else "?" ++ encodeQuery u.query)

/-! ### HTTP requests and headers -/

/-- An outbound request; headers are a list whose lookup is case-insensitive,
matching net/http's canonicalised header semantics. -/
structure HttpRequest where
  method : String
  url : Url
  headers : List (String × String)
  body : String
deriving DecidableEq, Repr

/-- http.Header.Get: first value stored for the (case-insensitive) key. -/
def headerGet (hs : List (String × String)) (k : String) : Option String :=
  (hs.find? (fun p => foldEq p.1 k)).map (·.2)

/-- http.Header.Set: replace every value of the key. -/
def headerSet (hs : List (String × String)) (k v : String) : List (String × String) :=
  hs.filter (fun p => !foldEq p.1 k) ++ [(k, v)]

/-- http.Header.Add: append a value for the key. -/
def headerAdd (hs : List (String × String)) (k v : String) : List (String × String) :=
  hs ++ [(k, v)]

/-- encoding/base64.StdEncoding.EncodeToString on ASCII input bytes. -/
def base64Encode (s : String) : String :=
  let table : List Char :=
    "ABCDEFGHIJKLMNOPQRSTUVWXYZabcdefghijklmnopqrstuvwxyz0123456789+/".data
  let enc (n : Nat) : Char := (table.drop n).headD 'A'
  let rec go : List Char → List Char
    | [] => []
    | [a] =>
      let v := a.toNat * 16
      [enc (v / 64 % 64), enc (v % 64), '=', '=']
    | [a, b] =>
      let v := (a.toNat * 256 + b.toNat) * 4
      [enc (v / 64 / 64 % 64), enc (v / 64 % 64), enc (v % 64), '=']
    | a :: b :: c :: rest =>
      let v := (a.toNat * 256 + b.toNat) * 256 + c.toNat
      enc (v / 64 / 64 / 64 % 64) :: enc (v / 64 / 64 % 64) :: enc (v / 64 % 64) :: enc (v % 64) ::
        go rest
  String.mk (go s.data)

/-! ### Request security (setRequestSecurity) -/

/-- One entry of the comma-separated apiKey list, in the shape
passAs:name=value; malformed entries leave the request unchanged. -/
def applyApiKeyEntry (req : HttpRequest) (part0 : String) : HttpRequest :=
  let part := goTrimSpace part0
  if part = "" then req
  else
    match idxOfChar ':' part.data, idxOfChar '=' part.data with
    | some colonIdx, some eqIdx =>
      if eqIdx < colonIdx + 2 then req
      else
        let passAs := goToLower (goTrimSpace (strSlice part 0 colonIdx))
        let name := goTrimSpace (strSlice part (colonIdx + 1) eqIdx)
        let value := goTrimSpace (strSlice part (eqIdx + 1) part.data.length)
        if passAs = "header" then { req with headers := headerSet req.headers name value }
        else if passAs = "query" then
          { req with url := { req.url with query := querySet req.url.query name value } }
        else if passAs = "cookie" then
          let existing := (headerGet req.headers "Cookie").getD ""
          if existing ≠ "" then
            { req with headers := headerSet req.headers "Cookie" (existing ++ "; " ++ name ++ "=" ++ value) }
          else
            { req with headers := headerSet req.headers "Cookie" (name ++ "=" ++ value) }
        else req
    | _, _ => req

def applyApiKeyEntries (req : HttpRequest) (apiKey : String) : HttpRequest :=
  (goSplit apiKey ',').foldl applyApiKeyEntry req

/-- The skip condition of the apiKey entry loop: no colon, no '=', or the
first '=' closer than two characters after the colon. -/
def malformedApiKeyEntry (part0 : String) : Bool :=
  let part := goTrimSpace part0
  match idxOfChar ':' part.data, idxOfChar '=' part.data with
  | some colonIdx, some eqIdx => decide (eqIdx < colonIdx + 2)
  | _, _ => true

/-- setRequestSecurity from the current server source: dispatches on the
security type; for apiKey it accepts the entry list from basicAuth when
apiKeyAuth is empty. -/
def setRequestSecurity (req : HttpRequest) (security basicAuth apiKeyAuth bearerAuth : String) :
    HttpRequest :=
  let securityType := goTrimSpace security
  if securityType = "basic" then
    if basicAuth ≠ "" then
      { req with headers := headerSet req.headers "Authorization" ("Basic " ++ base64Encode basicAuth) }
    else req
  else if securityType = "bearer" then
    if bearerAuth ≠ "" then
      { req with headers := headerSet req.headers "Authorization" ("Bearer " ++ bearerAuth) }
    else req
  else if securityType = "apiKey" then
    let apiKey := if apiKeyAuth = "" ∧ basicAuth ≠ "" then basicAuth else apiKeyAuth
    if apiKey ≠ "" then applyApiKeyEntries req apiKey else req
  else req

/-! ### The document model (app/models) -/

structure Server' where
  url : String
  description : String
deriving DecidableEq, Repr

structure SchemaRef where
  ref : String
  type : String
deriving DecidableEq, Repr

structure Property where
  type : String
deriving DecidableEq, Repr

structure Definition where
  type : String
  properties : List (String × Property)
deriving DecidableEq, Repr

structure Parameter where
  name : String
  in_ : String
  required : Bool
  type : String
  schema : Option SchemaRef
  description : String
deriving DecidableEq, Repr

structure Response where
  description : String
  schema : Option SchemaRef
  type : String
deriving DecidableEq, Repr

structure Endpoint where
  summary : String
  description : String
  parameters : List Parameter
  responses : List (String × Response)
deriving DecidableEq, Repr

structure Components where
  schemas : List (String × Definition)
deriving DecidableEq, Repr

structure SwaggerSpec where
  host : String
  basePath : String
  swagger : String
  openapi : String
  servers : List Server'
  components : Option Components
  paths : List (String × List (String × Endpoint))
  definitions : List (String × Definition)
deriving DecidableEq, Repr

/-- ExtractSchemaName: last segment of the reference, or the raw type. -/
def ExtractSchemaName (ref schemaType : String) : String :=
  if ref ≠ "" then
    let parts := goSplit ref '/'
    (parts.reverse.headD "")
  else schemaType

/-- getBaseURL from app/swagger/extracter.go. -/
def getBaseURL (swaggerSpec : SwaggerSpec) : String :=
  if swaggerSpec.openapi ≠ "" ∧ ¬ swaggerSpec.servers.isEmpty then
    strTrimSuf ((swaggerSpec.servers.headD ⟨"", ""⟩).url) "/"
  else
    let baseURL := swaggerSpec.host
    let baseURL :=
      if ¬ strHasPre baseURL "http://" ∧ ¬ strHasPre baseURL "https://" then
        "https://" ++ baseURL
      else baseURL
    if swaggerSpec.basePath ≠ "" then
      strTrimSuf baseURL "/" ++ "/" ++ strTrimPre swaggerSpec.basePath "/"
    else baseURL

/-- The base-URL derivation inlined in LoadSwaggerServer: an explicit override
wins; otherwise OpenAPI documents use the first server (or "/"), and
Swagger 2.0 documents use host (+basePath) with an https:// default scheme. -/
def deriveBaseUrl (baseUrl : String) (swaggerSpec : SwaggerSpec) : String :=
  if baseUrl = "" then
    if swaggerSpec.openapi ≠ "" then
      match swaggerSpec.servers with
      | [] => "/"
      | s :: _ => strTrimSuf s.url "/"
    else
      let b := swaggerSpec.host
      let b :=
        if ¬ strHasPre b "http://" ∧ ¬ strHasPre b "https://" then "https://" ++ b else b
      if swaggerSpec.basePath ≠ "" then
        strTrimSuf b "/" ++ "/" ++ strTrimPre swaggerSpec.basePath "/"
      else b
  else baseUrl

/-! ### Filter engine -/

/-- A compiled path regex is modelled by its matcher. -/
def PathRegex := String → Bool

/-- shouldIncludePath: an empty include list includes by default, any include
match includes, and any exclude match rejects. -/
def shouldIncludePath (path : String) (includeRegexes excludeRegexes : List PathRegex) : Bool :=
  let includeFlag := includeRegexes.isEmpty || includeRegexes.any (fun regex => regex path)
  if !includeFlag then false
  else !(excludeRegexes.any (fun regex => regex path))

/-- shouldIncludeMethod: case-insensitive exact match against trimmed entries;
an empty include list includes by default, and exclude matches reject. -/
def shouldIncludeMethod (method : String) (includeMethods excludeMethods : List String) : Bool :=
  let includeFlag :=
    includeMethods.isEmpty || includeMethods.any (fun m => foldEq (goTrimSpace m) method)
  if !includeFlag then false
  else !(excludeMethods.any (fun m => foldEq (goTrimSpace m) method))

/-- The split of a comma-separated method list performed by LoadSwaggerServer. -/
def methodList (s : String) : List String :=
  if (goTrimSpace s).data.length > 0 then goSplit s ',' else []

/-! ### Tool compilation (LoadSwaggerServer) -/

structure ToolField where
  name : String
  ftype : String
  required : Bool
deriving DecidableEq, Repr

structure CompiledTool where
  name : String
  fields : List ToolField
  reqURL : String
  reqMethod : String
  reqBody : List (String × String)
  reqPathParam : List String
  reqQueryParam : List String
  reqHeader : List String
deriving DecidableEq, Repr

/-- Assignment into a Go map modelled on an association list: the new binding
replaces any previous one. -/
def mapInsert (m : List (String × String)) (k v : String) : List (String × String) :=
  m.filter (fun p => p.1 ≠ k) ++ [(k, v)]

/-- The properties contributed by one body parameter: its schema name (from
the reference, else the raw type) looked up in the document's Definitions map
(and only there); an unresolved name contributes nothing.  Go dereferences
param.Schema unconditionally here; the model reads an absent schema as an
empty reference. -/
def bodyProps (swaggerSpec : SwaggerSpec) (param : Parameter) : List (String × Property) :=
  let schemaName := ExtractSchemaName ((param.schema.map (·.ref)).getD "") param.type
  match List.lookup schemaName swaggerSpec.definitions with
  | some definition => definition.properties
  | none => []

def sanitizeToolPath (path : String) : String :=
  removeChar (removeChar path rbrace) lbrace

/-- Compilation of one eligible (path, method, endpoint): the input fields in
source order (header, query, path, body), the request URL from the derived
base, and the captured parameter bindings. -/
def compileEndpoint (swaggerSpec : SwaggerSpec) (baseUrl path method : String) (ep : Endpoint) :
    CompiledTool :=
  let reqURL := strTrimSuf (deriveBaseUrl baseUrl swaggerSpec) "/" ++ "/" ++ strTrimPre path "/"
  let headerParams := ep.parameters.filter (fun p => p.in_ == "header")
  let queryParams := ep.parameters.filter (fun p => p.in_ == "query")
  let pathParams := ep.parameters.filter (fun p => p.in_ == "path")
  let bodyItems := (ep.parameters.filter (fun p => p.in_ == "body")).flatMap (bodyProps swaggerSpec)
  let mkField (p : Parameter) : ToolField := ⟨p.name, "string", p.required⟩
  { name := method ++ "_" ++ sanitizeToolPath path
    fields :=
      headerParams.map mkField ++ queryParams.map mkField ++ pathParams.map mkField ++
        bodyItems.map (fun it => ⟨it.1, "string", true⟩)
    reqURL := reqURL
    reqMethod := method
    reqBody := bodyItems.foldl (fun m it => mapInsert m it.1 it.2.type) []
    reqPathParam := pathParams.map (·.name)
    reqQueryParam := queryParams.map (·.name)
    reqHeader := headerParams.map (·.name) }

/-- The inner loop of LoadSwaggerServer over one path's methods. -/
def compilePathEntry (swaggerSpec : SwaggerSpec) (baseUrl : String)
    (includeRegexes excludeRegexes : List PathRegex) (includedMethods excludedMethods : List String)
    (entry : String × List (String × Endpoint)) : List (String × String × CompiledTool) :=
  if shouldIncludePath entry.1 includeRegexes excludeRegexes then
    entry.2.flatMap fun me =>
      if shouldIncludeMethod me.1 includedMethods excludedMethods then
        [(entry.1, me.1, compileEndpoint swaggerSpec baseUrl entry.1 me.1 me.2)]
      else []
  else []

/-- The compilation pass over an explicit path iteration order. -/
def compileFromPaths (swaggerSpec : SwaggerSpec) (baseUrl : String)
    (includeRegexes excludeRegexes : List PathRegex) (includedMethods excludedMethods : List String)
    (paths : List (String × List (String × Endpoint))) : List (String × String × CompiledTool) :=
  paths.flatMap
    (compilePathEntry swaggerSpec baseUrl includeRegexes excludeRegexes includedMethods
      excludedMethods)

/-- LoadSwaggerServer's registration pass: one tool per surviving
(path, method), tagged with the pair that produced it. -/
def loadSwaggerTools (swaggerSpec : SwaggerSpec) (baseUrl : String)
    (includeRegexes excludeRegexes : List PathRegex)
    (includedMethods excludedMethods : List String) : List (String × String × CompiledTool) :=
  compileFromPaths swaggerSpec baseUrl includeRegexes excludeRegexes includedMethods
    excludedMethods swaggerSpec.paths

/-! ### Spec loading (app/swagger/loader.go) -/

def DefaultMaxSpecSize : Nat := 10 * 1024 * 1024

/-- fmt.Sscanf with a %d verb: skips leading spaces, reads an optionally
signed run of digits, ignores anything after it, and errors when no digit
follows the sign. -/
def sscanfInt (s : String) : Option Int :=
  let l := s.data.dropWhile Char.isWhitespace
  let signed : Bool × List Char :=
    match l with
    | '+' :: rest => (false, rest)
    | '-' :: rest => (true, rest)
    | rest => (false, rest)
  let digits := signed.2.takeWhile Char.isDigit
  match digitsToNat? digits with
  | none => none
  | some n => some (if signed.1 then -(n : Int) else (n : Int))

/-- parseSize as written: after the KB/MB/GB suffix fixes the multiplier, the
Sscanf call stores the scanned number into the same mult variable, and that
scanned value is returned as-is — the multiplier is discarded.  The val*mult
fallback is unreachable (it rescans the identical string). -/
def parseSize (s0 : String) : Option Int :=
  let s := goToUpper (goTrimSpace s0)
  let stripped : Int × String :=
    if strHasSuf s "KB" then (1024, strTrimSuf s "KB")
    else if strHasSuf s "MB" then (1024 * 1024, strTrimSuf s "MB")
    else if strHasSuf s "GB" then (1024 * 1024 * 1024, strTrimSuf s "GB")
    else (1, s)
  match sscanfInt stripped.2 with
  | some scanned => some scanned
  | none =>
    match sscanfInt stripped.2 with
    | some val => some (val * stripped.1)
    | none => none

/-- The size guard of LoadSwagger: the reader is limited to maxSize+1 bytes
and a body longer than maxSize is rejected, never truncated into a result. -/
def loadSwaggerSizeCheck (maxSize : Nat) (content : String) : Except String String :=
  let body := content.data.take (maxSize + 1)
  if body.length > maxSize then
    .error ("spec file too large (max " ++ toString maxSize ++ " bytes)")
  else .ok (String.mk body)

/-! ### The request dispatcher (CreateMCPToolHandler) -/

/-- A value of the transport's untyped argument map: the handler only ever
asserts string-ness, so every non-string value collapses to one case. -/
inductive GoVal where
  | str (s : String)
  | other
deriving DecidableEq, Repr

/-- request.Params.Arguments[name].(string): present and a string. -/
def getStringArg (args : List (String × GoVal)) (k : String) : Option String :=
  match List.lookup k args with
  | some (.str s) => some s
  | _ => none

inductive ToolResult where
  | errorText (msg : String)
  | text (body : String)
deriving DecidableEq, Repr

/-- The outcome of client.Do plus io.ReadAll on the response. -/
inductive NetOutcome where
  | netErr (e : String)
  | readErr (e : String)
  | success (body : String)
deriving DecidableEq, Repr

/-- The external world the dispatcher calls into: the HTTP client, and
encoding/json.Unmarshal for array- and object-typed body fields. -/
structure GoEnv where
  jsonParseArr : String → Option (List JVal)
  jsonParseObj : String → Option (List (String × JVal))
  net : HttpRequest → NetOutcome

structure ApiConfig where
  baseUrl : String
  includePaths : String
  excludePaths : String
  includeMethods : String
  excludeMethods : String
  security : String
  basicAuth : String
  apiKeyAuth : String
  bearerAuth : String
  headers : String
  sseHeaders : String
deriving Repr

/-- Path substitution: each path parameter must be a string argument; one
occurrence of its braced placeholder is replaced. -/
def substPathParams (args : List (String × GoVal)) : List String → String → Except String String
  | [], u => .ok u
  | p :: rest, u =>
    match getStringArg args p with
    | none => .error ("[Error] missing or invalid Path Parameter: " ++ p)
    | some v =>
      substPathParams args rest
        (goReplaceFirst u (String.mk [lbrace] ++ p ++ String.mk [rbrace]) v)

/-- Query binding: each declared query parameter must be a string argument
and is Set into the query values. -/
def bindQueryParams (args : List (String × GoVal)) :
    List String → List (String × String) → Except String (List (String × String))
  | [], q => .ok q
  | n :: rest, q =>
    match getStringArg args n with
    | none => .error ("[Error] missing or invalid Query Parameter: " ++ n)
    | some v => bindQueryParams args rest (querySet q n v)

/-- Coercion of one body field by its declared type tag. -/
def coerceParam (env : GoEnv) (paramName paramType paramStr : String) : Except String JVal :=
  if paramType = "string" then .ok (.jstr paramStr)
  else if paramType = "int" ∨ paramType = "integer" then
    match goAtoi paramStr with
    | some intValue => .ok (.jint intValue)
    | none => .error ("[Error] invalid type for parameter " ++ paramName ++ ", expected int")
  else if paramType = "float" then
    match goParseFloat paramStr with
    | some floatValue => .ok (.jnum floatValue)
    | none => .error ("[Error] invalid type for parameter " ++ paramName ++ ", expected float")
  else if paramType = "bool" ∨ paramType = "boolean" then
    match goParseBool paramStr with
    | some boolValue => .ok (.jbool boolValue)
    | none => .error ("[Error] invalid type for parameter " ++ paramName ++ ", expected bool")
  else if paramType = "array" then
    match env.jsonParseArr paramStr with
    | some arrayValue => .ok (.jarr arrayValue)
    | none => .error ("[Error] invalid type for parameter " ++ paramName ++ ", expected array")
  else if paramType = "object" then
    match env.jsonParseObj paramStr with
    | some objectValue => .ok (.jobj objectValue)
    | none => .error ("[Error] invalid type for parameter " ++ paramName ++ ", expected object")
  else .error ("[Error] unsupported parameter type: " ++ paramType ++ " for " ++ paramName)

/-- Body construction over the captured field-to-type map. -/
def buildBody (env : GoEnv) (args : List (String × GoVal)) :
    List (String × String) → Except String (List (String × JVal))
  | [] => .ok []
  | (paramName, paramType) :: rest =>
    match getStringArg args paramName with
    | none => .error ("[Error] missing Body Parameter: " ++ paramName)
    | some paramStr =>
      match coerceParam env paramName paramType paramStr with
      | .error e => .error e
      | .ok v =>
        match buildBody env args rest with
        | .error e => .error e
        | .ok m => .ok ((paramName, v) :: m)

/-- Header binding: each declared header must be a string argument, added to
the request. -/
def bindHeaders (args : List (String × GoVal)) :
    List String → HttpRequest → Except String HttpRequest
  | [], req => .ok req
  | n :: rest, req =>
    match getStringArg args n with
    | none => .error ("[Error] missing or invalid Header: " ++ n)
    | some v => bindHeaders args rest { req with headers := headerAdd req.headers n v }

/-- Custom headers from ApiConfig.Headers (name=value pairs, comma-separated,
pairs without '=' or with an empty name skipped). -/
def applyCustomHeaders (req : HttpRequest) (headers : String) : HttpRequest :=
  if headers = "" then req
  else
    (goSplit headers ',').foldl
      (fun r pair0 =>
        let pair := goTrimSpace pair0
        if pair = "" then r
        else
          match idxOfChar '=' pair.data with
          | none => r
          | some i =>
            let key := goTrimSpace (strSlice pair 0 i)
            if key ≠ "" then
              { r with
                headers := headerAdd r.headers key (goTrimSpace (strSlice pair (i + 1) pair.data.length)) }
            else r)
      req

/-- Headers captured from the inbound SSE request and forwarded, when the
transport attached them to the call context. -/
def applySseHeaders (req : HttpRequest) (sse : Option (List (String × String))) : HttpRequest :=
  match sse with
  | none => req
  | some hs => hs.foldl (fun r kv => { r with headers := headerSet r.headers kv.1 kv.2 }) req

/-- The query-binding stage of the dispatcher: skipped outright for tools
with no query parameters, otherwise the URL is parsed, each declared query
parameter Set, and the URL re-rendered with the encoded query. -/
def dispatchUrl (args : List (String × GoVal)) (reqQueryParam : List String) (url1 : String) :
    Except String String :=
  if reqQueryParam.isEmpty then .ok url1
  else
    match parseUrl url1 with
    | none => .error "[Error] failed to parse URL: net/url: invalid control character in URL"
    | some u =>
      match bindQueryParams args reqQueryParam u.query with
      | .error e => .error e
      | .ok q => .ok (Url.render { u with query := q })

/-- The per-tool dispatcher returned by CreateMCPToolHandler.  The Go handler
returns a (*mcp.CallToolResult, error) pair; the model returns the same pair
shape, with every return site's error component written explicitly. -/
def mcpToolHandler (reqPathParam reqQueryParam : List String) (reqURL : String)
    (reqBody : List (String × String)) (reqMethod : String) (reqHeader : List String)
    (apiCfg : ApiConfig) (sse : Option (List (String × String))) (env : GoEnv)
    (args : List (String × GoVal)) : ToolResult × Option String :=
  match substPathParams args reqPathParam reqURL with
  | .error e => (.errorText e, none)
  | .ok url1 =>
    match dispatchUrl args reqQueryParam url1 with
    | .error e => (.errorText e, none)
    | .ok url2 =>
      match buildBody env args reqBody with
      | .error e => (.errorText e, none)
      | .ok bodyFields =>
        match goJsonMarshal bodyFields with
        | none => (.errorText "[Error] failed to marshal request body: unsupported value", none)
        | some bodyStr =>
          match parseUrl url2 with
          | none =>
            (.errorText "[Error] failed to create HTTP request: net/url: invalid control character in URL",
              none)
          | some u =>
            let req0 : HttpRequest := ⟨goToUpper reqMethod, u, [], bodyStr⟩
            match bindHeaders args reqHeader req0 with
            | .error e => (.errorText e, none)
            | .ok req1 =>
              let req2 := { req1 with headers := headerSet req1.headers "Content-Type" "application/json" }
              let req3 :=
                setRequestSecurity req2 apiCfg.security apiCfg.basicAuth apiCfg.apiKeyAuth
                  apiCfg.bearerAuth
              let req4 := applyCustomHeaders req3 apiCfg.headers
              let req5 := applySseHeaders req4 sse
              match env.net req5 with
              | .netErr e => (.errorText ("[Error] failed to make HTTP request: " ++ e), none)
              | .readErr e => (.errorText ("[Error] failed to read HTTP Response: " ++ e), none)
              | .success body => (.text body, none)

/-! ### Concrete fixtures used by the evaluation theorems -/

/-- An OpenAPI 3.0 body parameter referencing a components schema. -/
def c4Param : Parameter := ⟨"body", "body", true, "", some ⟨"#/components/schemas/User", ""⟩, ""⟩

def c4Ep : Endpoint := ⟨"create user", "", [c4Param], []⟩

/-- An OpenAPI 3.0 document whose User schema lives only in
components.schemas (its Definitions map is empty). -/
def c4Spec : SwaggerSpec :=
  ⟨"", "", "", "3.0.0", [⟨"https://api.example.com", ""⟩],
    some ⟨[("User", ⟨"object", [("name", ⟨"string"⟩)]⟩)]⟩, [("/users", [("post", c4Ep)])], []⟩

/-- A Swagger 2.0 body parameter referencing a Definitions schema. -/
def c4wParam : Parameter := ⟨"body", "body", true, "", some ⟨"#/definitions/User", ""⟩, ""⟩

def c4wEp : Endpoint := ⟨"create user", "", [c4wParam], []⟩

def c4wSpec : SwaggerSpec :=
  ⟨"api.test", "", "2.0", "", [], none, [("/users", [("post", c4wEp)])],
    [("User", ⟨"object", [("name", ⟨"string"⟩), ("age", ⟨"int"⟩)]⟩)]⟩

/-- The apiKey credential string of the repository's security test. -/
def c7Auth : String := "header:X-API-KEY=abc,query:foo=bar2,cookie:sid=ccc"

def c9Ep : Endpoint := ⟨"s", "d", [], []⟩

def c9E1 : String × List (String × Endpoint) := ("/a", [("get", c9Ep)])

def c9E2 : String × List (String × Endpoint) := ("/b", [("get", c9Ep), ("post", c9Ep)])

def c9Spec : SwaggerSpec := ⟨"h.com", "", "", "", [], none, [c9E1, c9E2], []⟩

def fixtureCfg : ApiConfig := ⟨"", "", "", "", "", "", "", "", "", "", ""⟩

def fixtureEnvA : GoEnv := ⟨fun _ => none, fun _ => none, fun r => .success r.body⟩

def fixtureEnvB : GoEnv := ⟨fun _ => none, fun _ => none, fun _ => .netErr "connection refused"⟩

/-- A plain request fixture for concrete security evaluations. -/
def fixtureReq : HttpRequest := ⟨"GET", ⟨"http://h/x", []⟩, [], ""⟩

/-! ### Helper lemmas -/

theorem foldEq_refl (s : String) : foldEq s s = true := by
  simp [foldEq]

theorem foldEq_true_iff (s t : String) : foldEq s t = true ↔ lowerMap s = lowerMap t := by
  simp [foldEq]

theorem strHasPre_append (s t pre : String) (h : strHasPre s pre = true) :
    strHasPre (s ++ t) pre = true := by
  simp only [strHasPre, List.isPrefixOf_iff_prefix, String.data_append] at h ⊢
  exact h.trans (List.prefix_append s.data t.data)

theorem headerGet_set_self (hs : List (String × String)) (k v : String) :
    headerGet (headerSet hs k v) k = some v := by
  induction hs with
  | nil => simp [headerGet, headerSet, List.find?, foldEq_refl]
  | cons x xs ih =>
    by_cases hx : foldEq x.1 k = true
    · simpa [headerSet, List.filter_cons, hx] using ih
    · simp only [Bool.not_eq_true] at hx
      simpa [headerSet, headerGet, List.filter_cons, List.find?_cons, hx] using ih

theorem headerGet_set_ne (hs : List (String × String)) (k v j : String)
    (h : lowerMap j ≠ lowerMap k) : headerGet (headerSet hs k v) j = headerGet hs j := by
  have hkj : foldEq k j = false := by
    cases hkj : foldEq k j
    · rfl
    · exact absurd ((foldEq_true_iff k j).1 hkj).symm h
  induction hs with
  | nil => simp [headerGet, headerSet, List.find?, hkj]
  | cons x xs ih =>
    by_cases hx : foldEq x.1 k = true
    · have hxj : foldEq x.1 j = false := by
        cases hxj : foldEq x.1 j
        · rfl
        · exact absurd (((foldEq_true_iff x.1 j).1 hxj).symm.trans ((foldEq_true_iff x.1 k).1 hx)) h
      simp only [headerSet, List.filter_cons, hx] at ih ⊢
      simpa [headerGet, List.find?_cons, hxj] using ih
    · simp only [Bool.not_eq_true] at hx
      by_cases hxj : foldEq x.1 j = true
      · simp [headerSet, headerGet, List.filter_cons, List.find?_cons, hx, hxj]
      · simp only [Bool.not_eq_true] at hxj
        simp only [headerSet, List.filter_cons, hx] at ih ⊢
        simpa [headerGet, List.find?_cons, hxj] using ih

theorem queryGet_set_self (q : List (String × String)) (k v : String) :
    queryGet (querySet q k v) k = some v := by
  induction q with
  | nil => simp [queryGet, querySet, List.find?]
  | cons x xs ih =>
    by_cases hx : x.1 = k
    · simpa [querySet, List.filter_cons, hx] using ih
    · simp only [querySet, List.filter_cons, hx] at ih ⊢
      simp only [queryGet, List.find?_cons] at ih ⊢
      simp [hx, ih]

/-! ### C1 -/

/-- C1: a tool is registered for (path, method) exactly when shouldIncludePath
accepts the path and shouldIncludeMethod accepts the method; an empty include
list includes everything by default, and an exclude match always rejects,
also in the presence of an include match. -/
theorem tool_registration_filter :
    ∀ (swaggerSpec : SwaggerSpec) (baseUrl : String) (incR excR : List PathRegex)
      (incM excM : List String) (path method : String),
      ((∃ t, (path, method, t) ∈ loadSwaggerTools swaggerSpec baseUrl incR excR incM excM) ↔
        ∃ methods, (path, methods) ∈ swaggerSpec.paths ∧ (∃ ep, (method, ep) ∈ methods) ∧
          shouldIncludePath path incR excR = true ∧ shouldIncludeMethod method incM excM = true)
      ∧ shouldIncludePath path [] excR = !(excR.any (fun regex => regex path))
      ∧ shouldIncludeMethod method [] excM
          = !(excM.any (fun m => foldEq (goTrimSpace m) method))
      ∧ (excR.any (fun regex => regex path) = true →
          shouldIncludePath path incR excR = false)
      ∧ (excM.any (fun m => foldEq (goTrimSpace m) method) = true →
          shouldIncludeMethod method incM excM = false) := by
  intro swaggerSpec baseUrl incR excR incM excM path method
  refine ⟨?_, ?_, ?_, ?_, ?_⟩
  · constructor
    · rintro ⟨t, ht⟩
      simp only [loadSwaggerTools, compileFromPaths, List.mem_flatMap] at ht
      obtain ⟨⟨p, ms⟩, hmem, hin⟩ := ht
      simp only [compilePathEntry] at hin
      by_cases hp : shouldIncludePath p incR excR = true
      · simp only [hp, if_true, List.mem_flatMap] at hin
        obtain ⟨⟨m, ep⟩, hms, hin2⟩ := hin
        by_cases hm : shouldIncludeMethod m incM excM = true
        · simp only [hm, if_true, List.mem_singleton] at hin2
          cases hin2
          exact ⟨ms, hmem, ⟨ep, hms⟩, hp, hm⟩
        · simp [hm] at hin2
      · simp [hp] at hin
    · rintro ⟨ms, hmem, ⟨ep, hms⟩, hp, hm⟩
      refine ⟨compileEndpoint swaggerSpec baseUrl path method ep, ?_⟩
      simp only [loadSwaggerTools, compileFromPaths, List.mem_flatMap]
      refine ⟨(path, ms), hmem, ?_⟩
      simp only [compilePathEntry, hp, if_true, List.mem_flatMap]
      exact ⟨(method, ep), hms, by simp [hm]⟩
  · simp [shouldIncludePath]
  · simp [shouldIncludeMethod]
  · intro h
    simp only [shouldIncludePath, h]
    cases incR.isEmpty || incR.any (fun regex => regex path) <;> simp
  · intro h
    simp only [shouldIncludeMethod, h]
    cases incM.isEmpty || incM.any (fun m => foldEq (goTrimSpace m) method) <;> simp

/-! ### C3 -/

/-- C3: base URL derivation evaluated on the claim's four documents.  The
three Swagger 2.0 cases come out as claimed; on the OpenAPI document with
server URL "https://api.example.com/v1/" the code returns the URL with its
trailing slash trimmed, not the verbatim string the claim (and the
repository's own TestGetBaseURL_OpenAPI) expects. -/
theorem getBaseURL_eval :
    getBaseURL ⟨"foo.com", "", "", "", [], none, [], []⟩ = "https://foo.com"
    ∧ getBaseURL ⟨"http://foo.com", "", "", "", [], none, [], []⟩ = "http://foo.com"
    ∧ getBaseURL ⟨"foo.com", "/bar/", "", "", [], none, [], []⟩ = "https://foo.com/bar/"
    ∧ getBaseURL ⟨"", "", "", "3.0.0", [⟨"https://api.example.com/v1/", ""⟩], none, [], []⟩
        = "https://api.example.com/v1"
    ∧ getBaseURL ⟨"", "", "", "3.0.0", [⟨"https://api.example.com/v1/", ""⟩], none, [], []⟩
        ≠ "https://api.example.com/v1/"
    ∧ deriveBaseUrl "" ⟨"", "", "", "3.0.0", [⟨"https://api.example.com/v1/", ""⟩], none, [], []⟩
        = "https://api.example.com/v1" := by
  refine ⟨?_, ?_, ?_, ?_, ?_, ?_⟩ <;> decide

/-! ### C8 -/

/-- C8: the spec-size limit parser as written returns the scanned number with
the KB/MB/GB multiplier discarded (the Sscanf call overwrites the multiplier
variable), so parseSize "10MB" evaluates to 10, not the 10485760 the claim
and the function's own doc comment describe; plain integers and the 10 MiB
default are as claimed, and an oversized document is a load error, never a
truncated result. -/
theorem parseSize_eval :
    parseSize "10MB" = some 10
    ∧ parseSize "10MB" ≠ some 10485760
    ∧ parseSize "5KB" = some 5
    ∧ parseSize "1048576" = some 1048576
    ∧ parseSize "x" = none
    ∧ DefaultMaxSpecSize = 10485760
    ∧ (∀ maxSize : Nat, ∀ content : String, content.data.length > maxSize →
        loadSwaggerSizeCheck maxSize content
          = .error ("spec file too large (max " ++ toString maxSize ++ " bytes)")) := by
  refine ⟨by decide, by decide, by decide, by decide, by decide, by decide, ?_⟩
  intro maxSize content h
  have hlen : (content.data.take (maxSize + 1)).length = maxSize + 1 := by
    rw [List.length_take]
    omega
  simp [loadSwaggerSizeCheck, hlen]

/-! ### C2 -/

/-- C2: on the body type map name:string, age:int, active:bool, dispatching
with the string arguments bob, 42 and true coerces age to a JSON number and
active to a JSON boolean, and the outbound request body is the corresponding
JSON object (keys emitted in Go's sorted order); an argument that fails its
declared coercion yields the typed error result instead. -/
theorem body_coercion_eval :
    ∀ env : GoEnv,
      buildBody env
          [("name", .str "bob"), ("age", .str "42"), ("active", .str "true")]
          [("name", "string"), ("age", "int"), ("active", "bool")]
        = .ok [("name", .jstr "bob"), ("age", .jint 42), ("active", .jbool true)]
      ∧ mcpToolHandler [] [] "http://api.test/users"
          [("name", "string"), ("age", "int"), ("active", "bool")] "post" []
          ⟨"", "", "", "", "", "", "", "", "", "", ""⟩ none
          ⟨env.jsonParseArr, env.jsonParseObj, fun r => .success r.body⟩
          [("name", .str "bob"), ("age", .str "42"), ("active", .str "true")]
        = (.text "\x7b\"active\":true,\"age\":42,\"name\":\"bob\"\x7d", none)
      ∧ buildBody env
          [("name", .str "bob"), ("age", .str "forty"), ("active", .str "true")]
          [("name", "string"), ("age", "int"), ("active", "bool")]
        = .error "[Error] invalid type for parameter age, expected int"
      ∧ buildBody env
          [("name", .str "bob"), ("age", .str "42"), ("active", .str "yes")]
          [("name", "string"), ("age", "int"), ("active", "bool")]
        = .error "[Error] invalid type for parameter active, expected bool" := by
  intro env
  exact ⟨rfl, rfl, rfl, rfl⟩

/-! ### C4 -/

/-- C4 counterexample: an OpenAPI 3.0 document whose User schema sits in
components.schemas (Definitions empty) — the schema resolves there, yet the
compiled tool gets zero body fields: compilation never consults
components.schemas. -/
theorem body_schema_components_ignored :
    (c4Spec.components.map fun c => List.lookup "User" c.schemas)
      = some (some ⟨"object", [("name", ⟨"string"⟩)]⟩)
    ∧ ExtractSchemaName "#/components/schemas/User" "" = "User"
    ∧ (compileEndpoint c4Spec "" "/users" "post" c4Ep).reqBody = []
    ∧ (compileEndpoint c4Spec "" "/users" "post" c4Ep).fields = [] := by
  exact ⟨rfl, by decide, by decide, by decide⟩

theorem filter_ne_key_eq_self (acc : List (String × String)) (k : String)
    (h : ∀ q ∈ acc, q.1 ≠ k) : acc.filter (fun p => p.1 ≠ k) = acc := by
  induction acc with
  | nil => rfl
  | cons x xs ih =>
    have hx := h x (List.mem_cons_self x xs)
    have ih' := ih fun q hq => h q (List.mem_cons_of_mem x hq)
    simp [List.filter_cons, hx, ih']
    intro a b hab
    exact h (a, b) (List.mem_cons_of_mem x hab)

theorem foldl_mapInsert_eq_map (props : List (String × Property)) :
    ∀ acc : List (String × String),
      (props.map Prod.fst).Nodup → (∀ k ∈ props.map Prod.fst, ∀ q ∈ acc, q.1 ≠ k) →
      props.foldl (fun m it => mapInsert m it.1 it.2.type) acc
        = acc ++ props.map (fun pr => (pr.1, pr.2.type)) := by
  induction props with
  | nil => intro acc _ _; simp
  | cons hd tl ih =>
    intro acc hnd hdisj
    simp only [List.map_cons, List.nodup_cons] at hnd
    have hins : mapInsert acc hd.1 hd.2.type = acc ++ [(hd.1, hd.2.type)] := by
      unfold mapInsert
      rw [filter_ne_key_eq_self acc hd.1
        (hdisj hd.1 (by simp))]
    simp only [List.foldl_cons, hins]
    rw [ih (acc ++ [(hd.1, hd.2.type)]) hnd.2 ?_]
    · simp
    · intro k hk q hq
      rcases List.mem_append.1 hq with hq | hq
      · exact hdisj k (by simp [hk]) q hq
      · simp only [List.mem_singleton] at hq
        subst hq
        exact fun hEq => hnd.1 (hEq ▸ hk)

/-- C4 (amended): a body parameter's schema name (last $ref segment, or the
raw type) is resolved against the document's Definitions map only — not
against components.schemas; every first-level property of a resolved schema
becomes a required string-typed tool input field, typed in the body map by
its declared type, and an unresolved name contributes zero body fields while
the operation still compiles to a tool. -/
theorem body_schema_resolution :
    ∀ (swaggerSpec : SwaggerSpec) (baseUrl path method : String) (ep : Endpoint)
      (p : Parameter) (sr : SchemaRef),
      p ∈ ep.parameters → p.in_ = "body" → p.schema = some sr →
      (∀ defn,
        List.lookup (ExtractSchemaName sr.ref p.type) swaggerSpec.definitions = some defn →
        (∀ pr ∈ defn.properties,
          (⟨pr.1, "string", true⟩ : ToolField)
            ∈ (compileEndpoint swaggerSpec baseUrl path method ep).fields)
        ∧ (ep.parameters = [p] → (defn.properties.map Prod.fst).Nodup →
            (compileEndpoint swaggerSpec baseUrl path method ep).reqBody
              = defn.properties.map (fun pr => (pr.1, pr.2.type))))
      ∧ (List.lookup (ExtractSchemaName sr.ref p.type) swaggerSpec.definitions = none →
          bodyProps swaggerSpec p = []
          ∧ (ep.parameters = [p] →
              (compileEndpoint swaggerSpec baseUrl path method ep).reqBody = []
              ∧ (compileEndpoint swaggerSpec baseUrl path method ep).name
                  = method ++ "_" ++ sanitizeToolPath path)) := by
  intro swaggerSpec baseUrl path method ep p sr hmem hbody hschema
  have hprops : ∀ defn,
      List.lookup (ExtractSchemaName sr.ref p.type) swaggerSpec.definitions = some defn →
      bodyProps swaggerSpec p = defn.properties := by
    intro defn hdefn
    simp [bodyProps, hschema, hdefn]
  constructor
  · intro defn hdefn
    constructor
    · intro pr hpr
      simp only [compileEndpoint, List.mem_append]
      right
      simp only [List.mem_map]
      refine ⟨pr, ?_, rfl⟩
      simp only [List.mem_flatMap]
      exact ⟨p, List.mem_filter.2 ⟨hmem, by simp [hbody]⟩, (hprops defn hdefn) ▸ hpr⟩
    · intro hsingle hnd
      simp only [compileEndpoint, hsingle, List.filter_cons, hbody]
      simp only [beq_self_eq_true, if_pos, List.filter_nil, List.flatMap_cons,
        List.flatMap_nil, List.append_nil, hprops defn hdefn]
      exact foldl_mapInsert_eq_map defn.properties [] hnd (by simp)
  · intro hdefn
    have hempty : bodyProps swaggerSpec p = [] := by
      simp [bodyProps, hschema, hdefn]
    refine ⟨hempty, ?_⟩
    intro hsingle
    constructor
    · simp only [compileEndpoint, hsingle, List.filter_cons, hbody]
      simp [hempty]
    · rfl

/-! ### C7 -/

/-- C7: with scheme apiKey and the entry string
header:X-API-KEY=abc,query:foo=bar2,cookie:sid=ccc, the outbound request
carries header X-API-KEY: abc, query parameter foo=bar2, and a Cookie header
containing sid=ccc; an entry lacking a colon, lacking an equals sign, or
whose first equals sign is closer than two characters after the colon is
skipped (it leaves the request unchanged) while the remaining entries of the
fold are still applied. -/
theorem apiKey_security_eval :
    ∀ req : HttpRequest,
      (headerGet (setRequestSecurity req "apiKey" "" c7Auth "").headers "X-API-KEY" = some "abc"
        ∧ queryGet (setRequestSecurity req "apiKey" "" c7Auth "").url.query "foo" = some "bar2"
        ∧ ∃ pre, headerGet (setRequestSecurity req "apiKey" "" c7Auth "").headers "Cookie"
            = some (pre ++ "sid=ccc"))
      ∧ (∀ (req' : HttpRequest) (part : String), malformedApiKeyEntry part = true →
          applyApiKeyEntry req' part = req')
      ∧ setRequestSecurity req "apiKey" "" c7Auth "" = applyApiKeyEntries req c7Auth := by
  intro req
  have hsplit : setRequestSecurity req "apiKey" "" c7Auth ""
      = applyApiKeyEntry
          (applyApiKeyEntry (applyApiKeyEntry req "header:X-API-KEY=abc") "query:foo=bar2")
          "cookie:sid=ccc" := rfl
  have h1 : applyApiKeyEntry req "header:X-API-KEY=abc"
      = { req with headers := headerSet req.headers "X-API-KEY" "abc" } := rfl
  have r2eq : applyApiKeyEntry (applyApiKeyEntry req "header:X-API-KEY=abc") "query:foo=bar2"
      = { req with
            headers := headerSet req.headers "X-API-KEY" "abc"
            url := { req.url with query := querySet req.url.query "foo" "bar2" } } := rfl
  have happ : ∀ s : String, s ++ "; " ++ "sid" ++ "=" ++ "ccc" = (s ++ "; ") ++ "sid=ccc" := by
    intro s
    simp only [String.append_assoc]
    rfl
  refine ⟨?_, ?_, rfl⟩
  · rw [hsplit, r2eq]
    set r2 : HttpRequest :=
      { req with
          headers := headerSet req.headers "X-API-KEY" "abc"
          url := { req.url with query := querySet req.url.query "foo" "bar2" } } with hr2
    have h3 : applyApiKeyEntry r2 "cookie:sid=ccc"
        = (if ((headerGet r2.headers "Cookie").getD "") ≠ "" then
            { r2 with
                headers := headerSet r2.headers "Cookie"
                  (((headerGet r2.headers "Cookie").getD "") ++ "; " ++ "sid" ++ "=" ++ "ccc") }
          else
            { r2 with headers := headerSet r2.headers "Cookie" ("sid" ++ "=" ++ "ccc") }) := rfl
    have hne : lowerMap "X-API-KEY" ≠ lowerMap "Cookie" := by decide
    by_cases hc : ((headerGet r2.headers "Cookie").getD "") = ""
    · rw [h3, if_neg (by simpa using hc)]
      refine ⟨?_, ?_, ?_⟩
      · rw [headerGet_set_ne _ _ _ _ hne]
        exact headerGet_set_self req.headers "X-API-KEY" "abc"
      · exact queryGet_set_self req.url.query "foo" "bar2"
      · refine ⟨"", ?_⟩
        rw [headerGet_set_self]
        rfl
    · rw [h3, if_pos hc]
      refine ⟨?_, ?_, ?_⟩
      · rw [headerGet_set_ne _ _ _ _ hne]
        exact headerGet_set_self req.headers "X-API-KEY" "abc"
      · exact queryGet_set_self req.url.query "foo" "bar2"
      · refine ⟨((headerGet r2.headers "Cookie").getD "") ++ "; ", ?_⟩
        rw [headerGet_set_self, happ]
  · intro req' part h
    by_cases hp : goTrimSpace part = ""
    · simp [applyApiKeyEntry, hp]
    · cases hcolon : idxOfChar ':' (goTrimSpace part).data with
      | none => simp [applyApiKeyEntry, hp, hcolon]
      | some colonIdx =>
        cases heq : idxOfChar '=' (goTrimSpace part).data with
        | none => simp [applyApiKeyEntry, hp, hcolon, heq]
        | some eqIdx =>
          have hlt : eqIdx < colonIdx + 2 := by
            simpa [malformedApiKeyEntry, hcolon, heq] using h
          simp [applyApiKeyEntry, hp, hcolon, heq, hlt]

/-! ### C10 -/

/-- C10: when the scheme is apiKey, apiKeyAuth is empty and basicAuth is not,
the dispatcher parses and applies the basicAuth string as the apiKey entry
list — identical to passing the same string as apiKeyAuth. -/
theorem apiKey_basicAuth_fallback :
    ∀ (req : HttpRequest) (basicAuth bearerAuth : String), basicAuth ≠ "" →
      setRequestSecurity req "apiKey" basicAuth "" bearerAuth
        = applyApiKeyEntries req basicAuth
      ∧ setRequestSecurity req "apiKey" basicAuth "" bearerAuth
        = setRequestSecurity req "apiKey" "" basicAuth bearerAuth := by
  intro req ba bt h
  have hred : ∀ aux : String,
      setRequestSecurity req "apiKey" ba aux bt
        = (if aux = "" ∧ ba ≠ "" then
            (if ba ≠ "" then applyApiKeyEntries req ba else req)
          else (if aux ≠ "" then applyApiKeyEntries req aux else req)) := by
    intro aux
    show (if (if aux = "" ∧ ba ≠ "" then ba else aux) ≠ "" then
        applyApiKeyEntries req (if aux = "" ∧ ba ≠ "" then ba else aux) else req) = _
    by_cases hcase : aux = "" ∧ ba ≠ ""
    · rw [if_pos hcase, if_pos hcase]
    · rw [if_neg hcase, if_neg hcase]
  have hself : setRequestSecurity req "apiKey" ba "" bt = applyApiKeyEntries req ba := by
    rw [hred ""]
    rw [if_pos ⟨rfl, h⟩, if_pos h]
  have hother : setRequestSecurity req "apiKey" "" ba bt = applyApiKeyEntries req ba := by
    have hred2 : ∀ aux : String,
        setRequestSecurity req "apiKey" "" aux bt
          = (if aux = "" ∧ ¬ ("" : String) = "" then
              (if ¬ ("" : String) = "" then applyApiKeyEntries req "" else req)
            else (if aux ≠ "" then applyApiKeyEntries req aux else req)) := by
      intro aux
      show (if (if aux = "" ∧ ("" : String) ≠ "" then "" else aux) ≠ "" then
          applyApiKeyEntries req (if aux = "" ∧ ("" : String) ≠ "" then "" else aux) else req) = _
      by_cases hcase : aux = "" ∧ ("" : String) ≠ ""
      · exact absurd rfl hcase.2
      · rw [if_neg hcase, if_neg hcase]
    rw [hred2 ba, if_neg (by simp), if_pos h]
  exact ⟨hself, hself.trans hother.symm⟩

/-- C10 witness: the fallback evaluated at a concrete request and a concrete
apiKey-shaped basicAuth string. -/
theorem apiKey_basicAuth_fallback_witness :
    setRequestSecurity fixtureReq "apiKey" "header:k=v" "" ""
      = applyApiKeyEntries fixtureReq "header:k=v"
    ∧ setRequestSecurity fixtureReq "apiKey" "header:k=v" "" ""
      = setRequestSecurity fixtureReq "apiKey" "" "header:k=v" "" :=
  apiKey_basicAuth_fallback fixtureReq "header:k=v" "" (by decide)

/-! ### Error-message lemmas for the dispatcher -/

theorem substPathParams_error_msg (args : List (String × GoVal)) :
    ∀ (pp : List String) (u e : String), substPathParams args pp u = .error e →
      strHasPre e "[Error]" = true := by
  intro pp
  induction pp with
  | nil => intro u e h; simp [substPathParams] at h
  | cons p rest ih =>
    intro u e h
    cases hp : getStringArg args p with
    | none =>
      simp only [substPathParams, hp] at h
      cases h
      exact strHasPre_append "[Error] missing or invalid Path Parameter: " p _ (by decide)
    | some v =>
      simp only [substPathParams, hp] at h
      exact ih _ e h

theorem bindQueryParams_error_msg (args : List (String × GoVal)) :
    ∀ (qp : List String) (q : List (String × String)) (e : String),
      bindQueryParams args qp q = .error e → strHasPre e "[Error]" = true := by
  intro qp
  induction qp with
  | nil => intro q e h; simp [bindQueryParams] at h
  | cons n rest ih =>
    intro q e h
    cases hn : getStringArg args n with
    | none =>
      simp only [bindQueryParams, hn] at h
      cases h
      exact strHasPre_append "[Error] missing or invalid Query Parameter: " n _ (by decide)
    | some v =>
      simp only [bindQueryParams, hn] at h
      exact ih _ e h

theorem dispatchUrl_error_msg (args : List (String × GoVal)) (qp : List String) (u1 e : String)
    (h : dispatchUrl args qp u1 = .error e) : strHasPre e "[Error]" = true := by
  unfold dispatchUrl at h
  split at h
  · simp at h
  · split at h
    · cases h
      decide
    · split at h
      · rename_i e2 hb
        cases h
        exact bindQueryParams_error_msg args qp _ e hb
      · simp at h

theorem coerceParam_error_msg (env : GoEnv) (paramName paramType paramStr e : String)
    (h : coerceParam env paramName paramType paramStr = .error e) :
    strHasPre e "[Error]" = true := by
  unfold coerceParam at h
  split at h
  · cases h
  · split at h
    · split at h
      · cases h
      · cases h
        exact strHasPre_append ("[Error] invalid type for parameter " ++ paramName) ", expected int"
          _ (strHasPre_append "[Error] invalid type for parameter " paramName _ (by decide))
    · split at h
      · split at h
        · cases h
        · cases h
          exact strHasPre_append ("[Error] invalid type for parameter " ++ paramName)
            ", expected float" _
            (strHasPre_append "[Error] invalid type for parameter " paramName _ (by decide))
      · split at h
        · split at h
          · cases h
          · cases h
            exact strHasPre_append ("[Error] invalid type for parameter " ++ paramName)
              ", expected bool" _
              (strHasPre_append "[Error] invalid type for parameter " paramName _ (by decide))
        · split at h
          · split at h
            · cases h
            · cases h
              exact strHasPre_append ("[Error] invalid type for parameter " ++ paramName)
                ", expected array" _
                (strHasPre_append "[Error] invalid type for parameter " paramName _ (by decide))
          · split at h
            · split at h
              · cases h
              · cases h
                exact strHasPre_append ("[Error] invalid type for parameter " ++ paramName)
                  ", expected object" _
                  (strHasPre_append "[Error] invalid type for parameter " paramName _ (by decide))
            · cases h
              exact strHasPre_append
                ("[Error] unsupported parameter type: " ++ paramType ++ " for ") paramName _
                (strHasPre_append ("[Error] unsupported parameter type: " ++ paramType) " for " _
                  (strHasPre_append "[Error] unsupported parameter type: " paramType _ (by decide)))

theorem buildBody_error_msg (env : GoEnv) (args : List (String × GoVal)) :
    ∀ (rb : List (String × String)) (e : String),
      buildBody env args rb = .error e → strHasPre e "[Error]" = true := by
  intro rb
  induction rb with
  | nil => intro e h; simp [buildBody] at h
  | cons kv rest ih =>
    intro e h
    obtain ⟨paramName, paramType⟩ := kv
    cases hn : getStringArg args paramName with
    | none =>
      simp only [buildBody, hn] at h
      cases h
      exact strHasPre_append "[Error] missing Body Parameter: " paramName _ (by decide)
    | some paramStr =>
      simp only [buildBody, hn] at h
      cases hc : coerceParam env paramName paramType paramStr with
      | error e2 =>
        rw [hc] at h
        cases h
        exact coerceParam_error_msg env paramName paramType paramStr e hc
      | ok v =>
        rw [hc] at h
        cases hb : buildBody env args rest with
        | error e3 =>
          rw [hb] at h
          cases h
          exact ih e hb
        | ok m =>
          rw [hb] at h
          simp at h

theorem bindHeaders_error_msg (args : List (String × GoVal)) :
    ∀ (hdrs : List String) (req : HttpRequest) (e : String),
      bindHeaders args hdrs req = .error e → strHasPre e "[Error]" = true := by
  intro hdrs
  induction hdrs with
  | nil => intro req e h; simp [bindHeaders] at h
  | cons n rest ih =>
    intro req e h
    cases hn : getStringArg args n with
    | none =>
      simp only [bindHeaders, hn] at h
      cases h
      exact strHasPre_append "[Error] missing or invalid Header: " n _ (by decide)
    | some v =>
      simp only [bindHeaders, hn] at h
      exact ih _ e h

/-! ### C5 -/

/-- C5: the dispatcher never returns a non-nil Go error: the error component
of the returned pair is nil on every path, every failure is surfaced as a
textual result whose message starts with "[Error]", and a successful call
returns the raw response body delivered by the HTTP client as text. -/
theorem dispatcher_error_policy :
    ∀ (reqPathParam reqQueryParam : List String) (reqURL : String)
      (reqBody : List (String × String)) (reqMethod : String) (reqHeader : List String)
      (apiCfg : ApiConfig) (sse : Option (List (String × String))) (env : GoEnv)
      (args : List (String × GoVal)),
      (mcpToolHandler reqPathParam reqQueryParam reqURL reqBody reqMethod reqHeader apiCfg sse
          env args).2 = none
      ∧ (∀ m, (mcpToolHandler reqPathParam reqQueryParam reqURL reqBody reqMethod reqHeader
            apiCfg sse env args).1 = .errorText m → strHasPre m "[Error]" = true)
      ∧ (∀ b, (mcpToolHandler reqPathParam reqQueryParam reqURL reqBody reqMethod reqHeader
            apiCfg sse env args).1 = .text b → ∃ hreq, env.net hreq = .success b) := by
  intro pp qp reqURL rb rm rh apiCfg sse env args
  unfold mcpToolHandler
  split
  · rename_i e hsub
    refine ⟨rfl, ?_, ?_⟩
    · intro m hm
      cases hm
      exact substPathParams_error_msg args pp reqURL _ hsub
    · intro b hb
      cases hb
  · rename_i url1 hsub
    split
    · rename_i e hurl
      refine ⟨rfl, ?_, ?_⟩
      · intro m hm
        cases hm
        exact dispatchUrl_error_msg args qp url1 _ hurl
      · intro b hb
        cases hb
    · rename_i url2 hurl
      split
      · rename_i e hbody
        refine ⟨rfl, ?_, ?_⟩
        · intro m hm
          cases hm
          exact buildBody_error_msg env args rb _ hbody
        · intro b hb
          cases hb
      · rename_i bodyFields hbody
        split
        · refine ⟨rfl, ?_, ?_⟩
          · intro m hm
            cases hm
            decide
          · intro b hb
            cases hb
        · rename_i bodyStr hmarshal
          split
          · refine ⟨rfl, ?_, ?_⟩
            · intro m hm
              cases hm
              decide
            · intro b hb
              cases hb
          · rename_i u hparse
            dsimp only
            split
            · rename_i e hhdrs
              refine ⟨rfl, ?_, ?_⟩
              · intro m hm
                cases hm
                exact bindHeaders_error_msg args rh _ _ hhdrs
              · intro b hb
                cases hb
            · rename_i req1 hhdrs
              split
              · rename_i e hnet
                refine ⟨rfl, ?_, ?_⟩
                · intro m hm
                  cases hm
                  exact strHasPre_append "[Error] failed to make HTTP request: " e _ (by decide)
                · intro b hb
                  cases hb
              · rename_i e hnet
                refine ⟨rfl, ?_, ?_⟩
                · intro m hm
                  cases hm
                  exact strHasPre_append "[Error] failed to read HTTP Response: " e _ (by decide)
                · intro b hb
                  cases hb
              · rename_i body hnet
                refine ⟨rfl, ?_, ?_⟩
                · intro m hm
                  cases hm
                · intro b hb
                  cases hb
                  exact ⟨_, hnet⟩

/-! ### C6 -/

theorem substPathParams_first_bad (args : List (String × GoVal)) :
    ∀ pp : List String, (∃ p ∈ pp, getStringArg args p = none) →
      ∃ p ∈ pp, getStringArg args p = none ∧
        ∀ u : String, substPathParams args pp u
          = .error ("[Error] missing or invalid Path Parameter: " ++ p) := by
  intro pp
  induction pp with
  | nil => rintro ⟨p, hp, -⟩; cases hp
  | cons q rest ih =>
    rintro ⟨p, hp, hbad⟩
    cases hq : getStringArg args q with
    | none =>
      exact ⟨q, List.mem_cons_self q rest, hq, fun u => by simp [substPathParams, hq]⟩
    | some v =>
      have hex : ∃ p ∈ rest, getStringArg args p = none := by
        rcases List.mem_cons.1 hp with rfl | hmem
        · rw [hq] at hbad; cases hbad
        · exact ⟨p, hmem, hbad⟩
      obtain ⟨p2, hmem2, hbad2, herr⟩ := ih hex
      exact ⟨p2, List.mem_cons_of_mem q hmem2, hbad2,
        fun u => by simp only [substPathParams, hq]; exact herr _⟩

/-- C6: when some path parameter is absent from the argument map or not a
string, the dispatcher returns an error result naming a missing path
parameter (the first such, whose name is contained in the message), and the
outcome is independent of the HTTP environment — no outbound request is
made. -/
theorem missing_path_param_aborts :
    ∀ (reqPathParam reqQueryParam : List String) (reqURL : String)
      (reqBody : List (String × String)) (reqMethod : String) (reqHeader : List String)
      (apiCfg : ApiConfig) (sse : Option (List (String × String))) (env env' : GoEnv)
      (args : List (String × GoVal)),
      (∃ p ∈ reqPathParam, getStringArg args p = none) →
      reqPathParam ≠ []
      ∧ (∃ p ∈ reqPathParam, getStringArg args p = none ∧
          mcpToolHandler reqPathParam reqQueryParam reqURL reqBody reqMethod reqHeader apiCfg
              sse env args
            = (.errorText ("[Error] missing or invalid Path Parameter: " ++ p), none))
      ∧ mcpToolHandler reqPathParam reqQueryParam reqURL reqBody reqMethod reqHeader apiCfg sse
          env args
        = mcpToolHandler reqPathParam reqQueryParam reqURL reqBody reqMethod reqHeader apiCfg sse
          env' args := by
  intro pp qp reqURL rb rm rh apiCfg sse env env' args hex
  obtain ⟨p, hmem, hbad, herr⟩ := substPathParams_first_bad args pp hex
  have hrun : ∀ envx : GoEnv,
      mcpToolHandler pp qp reqURL rb rm rh apiCfg sse envx args
        = (.errorText ("[Error] missing or invalid Path Parameter: " ++ p), none) := by
    intro envx
    unfold mcpToolHandler
    rw [herr reqURL]
  refine ⟨?_, ⟨p, hmem, hbad, hrun env⟩, (hrun env).trans (hrun env').symm⟩
  intro hnil
  rw [hnil] at hmem
  cases hmem

/-! ### C9 -/

/-- C9: compilation is deterministic and order-insensitive: the registration
pass is the pure fold compileFromPaths over the document's path entries, and
recompiling under any re-ordering of the (unordered Go map) path entries, or
of one path's method entries, yields a permutation of the same compiled
tools — the same tool names, URL templates, parameter lists and body maps. -/
theorem compile_idempotent :
    ∀ (swaggerSpec : SwaggerSpec) (baseUrl : String) (incR excR : List PathRegex)
      (incM excM : List String),
      loadSwaggerTools swaggerSpec baseUrl incR excR incM excM
        = compileFromPaths swaggerSpec baseUrl incR excR incM excM swaggerSpec.paths
      ∧ (∀ paths₁ paths₂ : List (String × List (String × Endpoint)), paths₁.Perm paths₂ →
          (compileFromPaths swaggerSpec baseUrl incR excR incM excM paths₁).Perm
            (compileFromPaths swaggerSpec baseUrl incR excR incM excM paths₂))
      ∧ (∀ (path : String) (ms₁ ms₂ : List (String × Endpoint)), ms₁.Perm ms₂ →
          (compilePathEntry swaggerSpec baseUrl incR excR incM excM (path, ms₁)).Perm
            (compilePathEntry swaggerSpec baseUrl incR excR incM excM (path, ms₂))) := by
  intro swaggerSpec baseUrl incR excR incM excM
  refine ⟨rfl, ?_, ?_⟩
  · intro paths₁ paths₂ hp
    exact hp.flatMap_right _
  · intro path ms₁ ms₂ hm
    unfold compilePathEntry
    dsimp only
    by_cases hp : shouldIncludePath path incR excR = true
    · simp only [hp, if_true]
      exact hm.flatMap_right _
    · simp [hp]

/-- C9 witness: the pass applied to the two orders of a concrete two-path
document gives permuted tool lists. -/
theorem compile_idempotent_witness :
    (compileFromPaths c9Spec "" [] [] [] [] [c9E1, c9E2]).Perm
      (compileFromPaths c9Spec "" [] [] [] [] [c9E2, c9E1]) :=
  (compile_idempotent c9Spec "" [] [] [] []).2.1 [c9E1, c9E2] [c9E2, c9E1]
    (List.Perm.swap c9E2 c9E1 [])

/-- C4 witness: the amended resolution theorem instantiated on a concrete
Swagger 2.0 document whose User schema defines name:string and age:int. -/
theorem body_schema_resolution_witness :
    (⟨"name", "string", true⟩ : ToolField)
        ∈ (compileEndpoint c4wSpec "" "/users" "post" c4wEp).fields
    ∧ (compileEndpoint c4wSpec "" "/users" "post" c4wEp).reqBody
        = [("name", "string"), ("age", "int")] := by
  have h := body_schema_resolution c4wSpec "" "/users" "post" c4wEp c4wParam
    ⟨"#/definitions/User", ""⟩ (by decide) (by decide) rfl
  have h1 := h.1 ⟨"object", [("name", ⟨"string"⟩), ("age", ⟨"int"⟩)]⟩ (by decide)
  refine ⟨h1.1 ("name", ⟨"string"⟩) (by decide), ?_⟩
  have h2 := h1.2 rfl (by decide)
  exact h2.trans (by decide)

/-- C6 witness: a tool whose only path parameter is id, dispatched with an
empty argument map, errors naming id, identically under two different HTTP
environments. -/
theorem missing_path_param_aborts_witness :
    (["id"] ≠ ([] : List String)
      ∧ (∃ p ∈ ["id"], getStringArg [] p = none ∧
          mcpToolHandler ["id"] [] "http://h/a" [] "get" [] fixtureCfg none fixtureEnvA []
            = (.errorText ("[Error] missing or invalid Path Parameter: " ++ p), none))
      ∧ mcpToolHandler ["id"] [] "http://h/a" [] "get" [] fixtureCfg none fixtureEnvA []
          = mcpToolHandler ["id"] [] "http://h/a" [] "get" [] fixtureCfg none fixtureEnvB []) :=
  missing_path_param_aborts ["id"] [] "http://h/a" [] "get" [] fixtureCfg none fixtureEnvA
    fixtureEnvB [] ⟨"id", by decide, rfl⟩

end SwaggerMcp
